import Mathlib

/-!
Shallow embedding of the hierarchical polygon validation and measurement
engine of `src/components/MapboxMap.tsx` (Open_Forest_MapBox).

Coordinates (`number[][]` in the source) are modelled as lists of pairs of
rationals.  The external computational-geometry library (turf) is modelled
by two records of abstract functions:

* `GeoLib`  — the measurement primitives `turf.area`, `turf.length`,
  `turf.distance` (the bounding box `turf.bbox` is the coordinate-wise
  min/max over the ring and is modelled concretely);
* `GeoPred` — the boolean predicates derived from `turf.intersect`
  (non-empty intersection) and `turf.booleanContains`.

Every definition below is translated from the source component; React state
updates become explicit state passing (the drawing library's feature list
and the polygon store are the state).
-/

namespace OFM

abbrev Coord := ℚ × ℚ

/-- `type PolygonType = "area" | "mz" | "sp"` (MapboxMap.tsx:14). -/
inductive PolygonType
  | area
  | mz
  | sp
deriving DecidableEq

/-- `interface PolygonData` (MapboxMap.tsx:16-27). -/
structure PolygonData where
  id : String
  type : PolygonType
  name : String
  parentId : Option String
  area : ℚ
  perimeter : ℚ
  width : ℚ
  height : ℚ
  vertices : ℕ
  coordinates : List Coord
deriving DecidableEq

/-- A drawing-library feature geometry: the source only ever reads/writes the
outer ring `geometry.coordinates[0]` of `Polygon` features, so a polygon
geometry carries just that ring; any non-`Polygon` geometry is `other`. -/
inductive Geom
  | polygon (ring : List Coord)
  | other
deriving DecidableEq

/-- A feature held by the drawing library (id + geometry). -/
structure Feature where
  id : String
  geom : Geom
deriving DecidableEq

/-- Abstract measurement primitives of the external geometry library:
`turf.area`, `turf.length` (on the ring as a line string, in meters) and
`turf.distance` (geodesic point distance in meters). -/
structure GeoLib where
  area : List Coord → ℚ
  len : List Coord → ℚ
  dist : Coord → Coord → ℚ

/-- Abstract boolean predicates of the external geometry library:
`intersects a b` = `turf.intersect` of the two rings is non-null;
`contains a b` = `turf.booleanContains (polygon a) (polygon b)`. -/
structure GeoPred where
  intersects : List Coord → List Coord → Bool
  contains : List Coord → List Coord → Bool

/-- Bounding box `[minLng, minLat, maxLng, maxLat]` (`turf.bbox`). -/
structure BBox where
  minLng : ℚ
  minLat : ℚ
  maxLng : ℚ
  maxLat : ℚ
deriving DecidableEq

/-- `turf.bbox` on a ring: coordinate-wise min/max over the points.
On the empty ring (never produced by the source) it returns zeros. -/
def bboxOf : List Coord → BBox
  | [] => ⟨0, 0, 0, 0⟩
  | c :: rest =>
      rest.foldl
        (fun b p => ⟨min b.minLng p.1, min b.minLat p.2, max b.maxLng p.1, max b.maxLat p.2⟩)
        ⟨c.1, c.2, c.1, c.2⟩

/-- Result record of `calculateMeasurementsOnly`. -/
structure Measurements where
  area : ℚ
  perimeter : ℚ
  width : ℚ
  height : ℚ
  vertices : ℕ
deriving DecidableEq

/-- `calculateMeasurementsOnly` (MapboxMap.tsx:214-242). -/
def calculateMeasurementsOnly (gm : GeoLib) (coordinates : List Coord) : Measurements :=
  let b := bboxOf coordinates
  let centerLat := (b.minLat + b.maxLat) / 2
  let centerLng := (b.minLng + b.maxLng) / 2
  { area := gm.area coordinates
    perimeter := gm.len coordinates
    width := gm.dist (b.minLng, centerLat) (b.maxLng, centerLat)
    height := gm.dist (centerLng, b.minLat) (centerLng, b.maxLat)
    vertices := coordinates.length - 1 }

/-- `typeLabels` used for generated names (MapboxMap.tsx:112). -/
def typeLabel : PolygonType → String
  | .area => "Area"
  | .mz => "Monitoring Zone"
  | .sp => "Sample Plot"

/-- `typeLabels` used in the overlap error message (MapboxMap.tsx:182). -/
def typeLabelPlural : PolygonType → String
  | .area => "Areas"
  | .mz => "Monitoring Zones"
  | .sp => "Sample Plots"

/-- `checkOverlap` (MapboxMap.tsx:133-156): filter to same-type polygons,
excluding `excludeId` (`p.id !== excludeId`, which is always true when
`excludeId` is `undefined`), and test each for non-empty intersection. -/
def checkOverlap (gp : GeoPred) (polygons : List PolygonData) (newCoords : List Coord)
    (t : PolygonType) (excludeId : Option String) : Bool :=
  let sameTypePolygons := polygons.filter fun p => p.type == t && (some p.id != excludeId)
  sameTypePolygons.any fun existing => gp.intersects newCoords existing.coordinates

/-- `checkWithinParent` (MapboxMap.tsx:159-170): look up the parent; if
missing return `false`, otherwise `turf.booleanContains(parent, new)`. -/
def checkWithinParent (gp : GeoPred) (polygons : List PolygonData) (newCoords : List Coord)
    (parentId : String) : Bool :=
  match polygons.find? fun p => p.id == parentId with
  | none => false
  | some parent => gp.contains parent.coordinates newCoords

/-- The `{ valid, error }` record returned by `validatePolygon`. -/
structure VResult where
  valid : Bool
  error : Option String
deriving DecidableEq

/-- `validatePolygon` (MapboxMap.tsx:173-211).  The source tests
`type === "mz" && parentId` and then `type === "sp" && parentId` in
sequence; the two guards are mutually exclusive, which the match renders.
A `null` parent (`none`) skips containment entirely (JS truthiness on the
`string | null` parent id; library-assigned ids are non-empty strings). -/
def validatePolygon (gp : GeoPred) (polygons : List PolygonData) (coords : List Coord)
    (t : PolygonType) (parentId : Option String) (excludeId : Option String) : VResult :=
  if checkOverlap gp polygons coords t excludeId then
    ⟨false, some (typeLabelPlural t ++ " cannot overlap with each other")⟩
  else
    match t, parentId with
    | .mz, some pid =>
        if checkWithinParent gp polygons coords pid then ⟨true, none⟩
        else ⟨false, some "Monitoring Zone must be completely within the selected Area"⟩
    | .sp, some pid =>
        if checkWithinParent gp polygons coords pid then ⟨true, none⟩
        else ⟨false, some "Sample Plot must be completely within the selected Monitoring Zone"⟩
    | _, _ => ⟨true, none⟩

/-- The `data.features.filter(f => f.geometry.type === "Polygon")` step of
`updatePolygonsList` (MapboxMap.tsx:247-251), paired with the outer ring
`f.geometry.coordinates[0]` that is all the source ever reads from it. -/
def polygonFeatures (feats : List Feature) : List (String × List Coord) :=
  feats.filterMap fun f =>
    match f.geom with
    | .polygon r => some (f.id, r)
    | .other => none

/-- `updatePolygonsList` (MapboxMap.tsx:244-268): for every stored polygon
whose id matches a polygon feature, replace `coordinates` and spread in the
recomputed measurements; all other fields (and polygons) are unchanged. -/
def updatePolygonsList (gm : GeoLib) (feats : List Feature) (prev : List PolygonData) :
    List PolygonData :=
  prev.map fun p =>
    match (polygonFeatures feats).find? (fun fr => fr.1 == p.id) with
    | some fr =>
        let m := calculateMeasurementsOnly gm fr.2
        { p with coordinates := fr.2, area := m.area, perimeter := m.perimeter,
                 width := m.width, height := m.height, vertices := m.vertices }
    | none => p

/-- `calculatePolygonMeasurements` (MapboxMap.tsx:76-130): same measurement
formulas as `calculateMeasurementsOnly`, plus the generated name
`"<TypeLabel> <countOfType + 1>"` (used when `existingName` is absent). -/
def calculatePolygonMeasurements (gm : GeoLib) (polygons : List PolygonData)
    (featId : String) (coords : List Coord) (t : PolygonType) (parentId : Option String)
    (existingName : Option String) : PolygonData :=
  let m := calculateMeasurementsOnly gm coords
  let existingOfType := polygons.filter fun p => p.type == t
  let name := existingName.getD (typeLabel t ++ " " ++ toString (existingOfType.length + 1))
  { id := featId
    type := t
    name := name
    parentId := parentId
    area := m.area
    perimeter := m.perimeter
    width := m.width
    height := m.height
    vertices := coords.length - 1
    coordinates := coords }

/-- `handleCreate` (MapboxMap.tsx:441-476), as a function of the previous
store.  Returns the new store, whether the pending drawing-library feature
was deleted (the reject path), and the surfaced validation error. -/
def handleCreate (gm : GeoLib) (gp : GeoPred) (prev : List PolygonData)
    (featId : String) (coords : List Coord) (t : PolygonType) (parentId : Option String) :
    List PolygonData × Bool × Option String :=
  if prev.any (fun p => p.id == featId) then
    (prev, false, none)
  else
    let validation := validatePolygon gp prev coords t parentId none
    if validation.valid then
      (prev ++ [calculatePolygonMeasurements gm prev featId coords t parentId none],
       false, none)
    else
      (prev, true, validation.error)

/-- The splice-and-close step of `deleteVertex` (MapboxMap.tsx:596-600):
remove the point at `i`; when `i = 0`, overwrite the last point with a copy
of the new first point. -/
def removeVertex (ring : List Coord) (i : ℕ) : List Coord :=
  let c := ring.eraseIdx i
  if i = 0 then c.set (c.length - 1) (c.headD (0, 0)) else c

/-- Which exit `deleteVertex` took. -/
inductive DVOutcome
  | noFeature
  | tooFew
  | rejected (err : Option String)
  | committed
deriving DecidableEq

/-- `deleteVertex` (MapboxMap.tsx:583-630) over the explicit state
(drawing-library features, polygon store).  `draw.add` of a feature with an
existing id replaces that feature; `updatePolygonsList` then re-reads
`draw.getAll()`, i.e. the updated feature list. -/
def deleteVertex (gm : GeoLib) (gp : GeoPred) (feats : List Feature)
    (polys : List PolygonData) (polygonId : String) (vertexIndex : ℕ) :
    (List Feature × List PolygonData) × DVOutcome :=
  match feats.find? fun f => f.id == polygonId with
  | none => ((feats, polys), .noFeature)
  | some f =>
    match f.geom with
    | .other => ((feats, polys), .noFeature)
    | .polygon ring =>
      if ring.length ≤ 4 then ((feats, polys), .tooFew)
      else
        let coords := removeVertex ring vertexIndex
        let commit : (List Feature × List PolygonData) × DVOutcome :=
          let feats' := feats.map fun x =>
            if x.id == polygonId then { x with geom := .polygon coords } else x
          ((feats', updatePolygonsList gm feats' polys), .committed)
        match polys.find? fun p => p.id == polygonId with
        | some polygon =>
            let validation :=
              validatePolygon gp polys coords polygon.type polygon.parentId (some polygonId)
            if validation.valid then commit
            else ((feats, polys), .rejected validation.error)
        | none => commit

/-- The `draw.update` handler (MapboxMap.tsx:372-374): a committed drag
resynchronizes the store from the drawing library, with no validation. -/
def onDrawUpdate (gm : GeoLib) (feats : List Feature) (prev : List PolygonData) :
    List PolygonData :=
  updatePolygonsList gm feats prev

/-- Tier of a polygon type: Areas are roots, MZs mid, SPs leaves. -/
def tierRank : PolygonType → ℕ
  | .area => 0
  | .mz => 1
  | .sp => 2

/-- The recursive `findChildren` of `deletePolygon` (MapboxMap.tsx:512-519):
repeatedly collect the polygons whose `parentId || ""` lies in the current
frontier.  The source recursion carries no fuel and terminates exactly when
the parent graph is acyclic, in which case at most `prev.length + 1` rounds
occur; the fuel `prev.length + 3` (spent one unit per round) therefore
reproduces the source on every input where the source terminates. -/
def cascadeAux (prev : List PolygonData) : ℕ → Finset String → List String → Finset String
  | 0, acc, _ => acc
  | fuel + 1, acc, parentIds =>
    let children := prev.filter fun p => parentIds.contains (p.parentId.getD "")
    if children.isEmpty then acc
    else
      cascadeAux prev fuel (acc ∪ (children.map fun c => c.id).toFinset)
        (children.map fun c => c.id)

/-- The `toDelete` set computed by `deletePolygon` (MapboxMap.tsx:511-519):
starts at `{id}` with frontier `[id]`. -/
def deleteCascadeSet (prev : List PolygonData) (id : String) : Finset String :=
  cascadeAux prev (prev.length + 3) {id} [id]

/-- `deletePolygon` (MapboxMap.tsx:507-528): first component is the new
store (`prev.filter(p => !toDelete.has(p.id))`), second is the set of ids
retracted from the drawing library (`toDelete.forEach(draw.delete)`). -/
def deletePolygon (prev : List PolygonData) (id : String) :
    List PolygonData × Finset String :=
  let toDelete := deleteCascadeSet prev id
  (prev.filter fun p => decide (p.id ∉ toDelete), toDelete)

/-- `y` is a transitive descendant of `x` in the store `prev`: `y`'s
`parentId` chain reaches `x`. -/
inductive Descendant (prev : List PolygonData) : String → String → Prop
  | base (p : PolygonData) (x : String) :
      p ∈ prev → p.parentId = some x → Descendant prev p.id x
  | step (p : PolygonData) (y x : String) :
      p ∈ prev → p.parentId = some y → Descendant prev y x → Descendant prev p.id x

/-- Walks of length `n` up the parent chain: polygons `p₀ … p_{n-1}` in
`prev` with `p₀.id = y`, each `pᵢ.parentId` the id of `pᵢ₊₁`, ending at the
parent id `x`. -/
def WalkN (prev : List PolygonData) : ℕ → String → String → Prop
  | 0, y, x => y = x
  | n + 1, y, x => ∃ p ∈ prev, p.id = y ∧ ∃ z, p.parentId = some z ∧ WalkN prev n z x

/-! ### List helper lemmas -/

theorem getLast?_cons_of_ne_nil {α : Type} (a : α) (l : List α) (h : l ≠ []) :
    (a :: l).getLast? = l.getLast? := by
  cases l with
  | nil => exact absurd rfl h
  | cons b t => exact List.getLast?_cons_cons ..

theorem getLast?_eraseIdx {α : Type} (l : List α) (i : ℕ) (h : i + 1 < l.length) :
    (l.eraseIdx i).getLast? = l.getLast? := by
  induction l generalizing i with
  | nil => simp at h
  | cons a t ih =>
    cases i with
    | zero =>
      simp only [List.eraseIdx]
      have ht : t ≠ [] := by
        intro he
        simp [he] at h
      exact (getLast?_cons_of_ne_nil a t ht).symm
    | succ j =>
      simp only [List.eraseIdx]
      have hj : j + 1 < t.length := by
        simpa using h
      have hne : t.eraseIdx j ≠ [] := by
        have hlen : (t.eraseIdx j).length = t.length - 1 :=
          List.length_eraseIdx_of_lt (by omega)
        intro he
        rw [he] at hlen
        simp at hlen
        omega
      have ht : t ≠ [] := by
        intro he
        simp [he] at hj
      rw [getLast?_cons_of_ne_nil a _ hne, getLast?_cons_of_ne_nil a t ht]
      exact ih j hj

theorem getLast?_set_last {α : Type} (l : List α) (x : α) (h : l ≠ []) :
    (l.set (l.length - 1) x).getLast? = some x := by
  induction l with
  | nil => exact absurd rfl h
  | cons a t ih =>
    cases t with
    | nil => rfl
    | cons b t' =>
      have : (a :: b :: t').length - 1 = (b :: t').length - 1 + 1 := by
        simp
      rw [this]
      simp only [List.set]
      rw [getLast?_cons_of_ne_nil]
      · exact ih (by simp)
      · intro he
        have := congrArg List.length he
        simp at this

theorem head?_set_of_ne_zero {α : Type} (l : List α) (n : ℕ) (x : α) (h : n ≠ 0) :
    (l.set n x).head? = l.head? := by
  cases l with
  | nil => rfl
  | cons a t =>
    cases n with
    | zero => exact absurd rfl h
    | succ m => rfl

/-! ### C6: vertex deletion index rule and ring closure -/

/-- **C6.** For every closed ring and every vertex index (a ring of `n`
points has `n - 1` vertices, at indices `0 .. n-2`): deleting index 0
rewrites the last element to equal the new first element; deleting any
other index applies no fix-up (it is the bare splice); in both cases the
result satisfies `coordinates[0] = coordinates[last]`. -/
theorem removeVertex_closure (ring : List Coord) (i : ℕ)
    (hcl : ring.head? = ring.getLast?) (hi : i + 1 < ring.length) :
    (i = 0 → (removeVertex ring i).getLast? = (ring.eraseIdx 0).head?) ∧
    (i ≠ 0 → removeVertex ring i = ring.eraseIdx i) ∧
    (removeVertex ring i).head? = (removeVertex ring i).getLast? := by
  cases ring with
  | nil => simp at hi
  | cons a t =>
    cases i with
    | zero =>
      cases t with
      | nil => simp at hi
      | cons b t' =>
        have hrv : removeVertex (a :: b :: t') 0
            = (b :: t').set ((b :: t').length - 1) b := by
          simp [removeVertex, List.eraseIdx]
        have hlast : ((b :: t').set ((b :: t').length - 1) b).getLast? = some b :=
          getLast?_set_last _ b (by simp)
        refine ⟨fun _ => ?_, fun h => absurd rfl h, ?_⟩
        · rw [hrv, hlast]
          rfl
        · rw [hrv, hlast]
          cases t' with
          | nil => rfl
          | cons c t'' =>
            rw [head?_set_of_ne_zero]
            · rfl
            · simp
    | succ j =>
      have hrv : removeVertex (a :: t) (j + 1) = (a :: t).eraseIdx (j + 1) := by
        simp [removeVertex]
      refine ⟨fun h => absurd h (Nat.succ_ne_zero j), fun _ => hrv, ?_⟩
      rw [hrv]
      have h1 : ((a :: t).eraseIdx (j + 1)).head? = some a := by
        simp [List.eraseIdx]
      have h2 : ((a :: t).eraseIdx (j + 1)).getLast? = (a :: t).getLast? :=
        getLast?_eraseIdx _ _ hi
      rw [h1, h2, ← hcl]
      rfl

/-- C6 witness: the closure conjunct evaluated on a concrete closed ring. -/
theorem removeVertex_closure_witness :
    (removeVertex [((0 : ℚ), (0 : ℚ)), (1, 0), (1, 1), (0, 1), (0, 0)] 0).head?
      = (removeVertex [((0 : ℚ), (0 : ℚ)), (1, 0), (1, 1), (0, 1), (0, 0)] 0).getLast? :=
  (removeVertex_closure _ 0 (by decide) (by decide)).2.2

/-! ### C7: the measurement calculator -/

theorem bboxFold_eq (l : List Coord) : ∀ b : BBox,
    l.foldl (fun b p => ⟨min b.minLng p.1, min b.minLat p.2,
                         max b.maxLng p.1, max b.maxLat p.2⟩) b
      = ⟨l.foldl (fun a p => min a p.1) b.minLng, l.foldl (fun a p => min a p.2) b.minLat,
         l.foldl (fun a p => max a p.1) b.maxLng, l.foldl (fun a p => max a p.2) b.maxLat⟩ := by
  induction l with
  | nil => intro b; rfl
  | cons p t ih => intro b; simp only [List.foldl_cons]; rw [ih]

theorem foldl_min_le_init (f : Coord → ℚ) (l : List Coord) :
    ∀ a : ℚ, l.foldl (fun x p => min x (f p)) a ≤ a := by
  induction l with
  | nil => intro a; simp
  | cons p t ih =>
    intro a
    simp only [List.foldl_cons]
    exact le_trans (ih _) (min_le_left _ _)

theorem foldl_min_le_mem (f : Coord → ℚ) (l : List Coord) :
    ∀ a : ℚ, ∀ q ∈ l, l.foldl (fun x p => min x (f p)) a ≤ f q := by
  induction l with
  | nil => intro a q hq; simp at hq
  | cons p t ih =>
    intro a q hq
    simp only [List.foldl_cons]
    rcases List.mem_cons.mp hq with h | h
    · subst h
      exact le_trans (foldl_min_le_init f t _) (min_le_right _ _)
    · exact ih _ q h

theorem foldl_min_attained (f : Coord → ℚ) (l : List Coord) :
    ∀ a : ℚ, l.foldl (fun x p => min x (f p)) a = a
      ∨ ∃ q ∈ l, l.foldl (fun x p => min x (f p)) a = f q := by
  induction l with
  | nil => intro a; exact Or.inl rfl
  | cons p t ih =>
    intro a
    simp only [List.foldl_cons]
    rcases ih (min a (f p)) with h | ⟨q, hq, h⟩
    · rcases min_choice a (f p) with hm | hm
      · exact Or.inl (h.trans hm)
      · exact Or.inr ⟨p, List.mem_cons_self .., h.trans hm⟩
    · exact Or.inr ⟨q, List.mem_cons_of_mem _ hq, h⟩

theorem foldl_max_le_init (f : Coord → ℚ) (l : List Coord) :
    ∀ a : ℚ, a ≤ l.foldl (fun x p => max x (f p)) a := by
  induction l with
  | nil => intro a; simp
  | cons p t ih =>
    intro a
    simp only [List.foldl_cons]
    exact le_trans (le_max_left _ _) (ih _)

theorem foldl_max_le_mem (f : Coord → ℚ) (l : List Coord) :
    ∀ a : ℚ, ∀ q ∈ l, f q ≤ l.foldl (fun x p => max x (f p)) a := by
  induction l with
  | nil => intro a q hq; simp at hq
  | cons p t ih =>
    intro a q hq
    simp only [List.foldl_cons]
    rcases List.mem_cons.mp hq with h | h
    · subst h
      exact le_trans (le_max_right _ _) (foldl_max_le_init f t _)
    · exact ih _ q h

theorem foldl_max_attained (f : Coord → ℚ) (l : List Coord) :
    ∀ a : ℚ, l.foldl (fun x p => max x (f p)) a = a
      ∨ ∃ q ∈ l, l.foldl (fun x p => max x (f p)) a = f q := by
  induction l with
  | nil => intro a; exact Or.inl rfl
  | cons p t ih =>
    intro a
    simp only [List.foldl_cons]
    rcases ih (max a (f p)) with h | ⟨q, hq, h⟩
    · rcases max_choice a (f p) with hm | hm
      · exact Or.inl (h.trans hm)
      · exact Or.inr ⟨p, List.mem_cons_self .., h.trans hm⟩
    · exact Or.inr ⟨q, List.mem_cons_of_mem _ hq, h⟩

/-- The bounding box of a non-empty ring is the coordinate-wise min/max:
every point lies inside it and each side is attained by some point. -/
theorem bboxOf_spec (ring : List Coord) (h : ring ≠ []) :
    (∀ p ∈ ring, (bboxOf ring).minLng ≤ p.1 ∧ (bboxOf ring).minLat ≤ p.2 ∧
        p.1 ≤ (bboxOf ring).maxLng ∧ p.2 ≤ (bboxOf ring).maxLat) ∧
    (∃ p ∈ ring, p.1 = (bboxOf ring).minLng) ∧
    (∃ p ∈ ring, p.2 = (bboxOf ring).minLat) ∧
    (∃ p ∈ ring, p.1 = (bboxOf ring).maxLng) ∧
    (∃ p ∈ ring, p.2 = (bboxOf ring).maxLat) := by
  cases ring with
  | nil => exact absurd rfl h
  | cons c rest =>
    have hb : bboxOf (c :: rest)
        = ⟨rest.foldl (fun a p => min a p.1) c.1, rest.foldl (fun a p => min a p.2) c.2,
           rest.foldl (fun a p => max a p.1) c.1, rest.foldl (fun a p => max a p.2) c.2⟩ := by
      show (List.foldl _ (⟨c.1, c.2, c.1, c.2⟩ : BBox) rest) = _
      rw [bboxFold_eq]
    rw [hb]
    refine ⟨?_, ?_, ?_, ?_, ?_⟩
    · intro p hp
      rcases List.mem_cons.mp hp with hpc | hpr
      · subst hpc
        exact ⟨foldl_min_le_init _ _ _, foldl_min_le_init _ _ _,
               foldl_max_le_init _ _ _, foldl_max_le_init _ _ _⟩
      · exact ⟨foldl_min_le_mem _ _ _ p hpr, foldl_min_le_mem _ _ _ p hpr,
               foldl_max_le_mem _ _ _ p hpr, foldl_max_le_mem _ _ _ p hpr⟩
    · rcases foldl_min_attained (fun p => p.1) rest c.1 with hc | ⟨q, hq, hqe⟩
      · exact ⟨c, List.mem_cons_self .., hc.symm⟩
      · exact ⟨q, List.mem_cons_of_mem _ hq, hqe.symm⟩
    · rcases foldl_min_attained (fun p => p.2) rest c.2 with hc | ⟨q, hq, hqe⟩
      · exact ⟨c, List.mem_cons_self .., hc.symm⟩
      · exact ⟨q, List.mem_cons_of_mem _ hq, hqe.symm⟩
    · rcases foldl_max_attained (fun p => p.1) rest c.1 with hc | ⟨q, hq, hqe⟩
      · exact ⟨c, List.mem_cons_self .., hc.symm⟩
      · exact ⟨q, List.mem_cons_of_mem _ hq, hqe.symm⟩
    · rcases foldl_max_attained (fun p => p.2) rest c.2 with hc | ⟨q, hq, hqe⟩
      · exact ⟨c, List.mem_cons_self .., hc.symm⟩
      · exact ⟨q, List.mem_cons_of_mem _ hq, hqe.symm⟩

/-- **C7.** On a non-empty (closed) ring, the measurement calculator
returns `width` = geodesic distance between `(minLng, centerLat)` and
`(maxLng, centerLat)` with `centerLat = (minLat + maxLat)/2`, `height` =
geodesic distance between `(centerLng, minLat)` and `(centerLng, maxLat)`
with `centerLng = (minLng + maxLng)/2`, and `vertexCount` = point count
minus one — where min/max Lng/Lat genuinely bound the ring and are
attained on it. -/
theorem calculateMeasurements_spec (gm : GeoLib) (ring : List Coord) (h : ring ≠ []) :
    (calculateMeasurementsOnly gm ring).width
      = gm.dist ((bboxOf ring).minLng, ((bboxOf ring).minLat + (bboxOf ring).maxLat) / 2)
               ((bboxOf ring).maxLng, ((bboxOf ring).minLat + (bboxOf ring).maxLat) / 2) ∧
    (calculateMeasurementsOnly gm ring).height
      = gm.dist (((bboxOf ring).minLng + (bboxOf ring).maxLng) / 2, (bboxOf ring).minLat)
               (((bboxOf ring).minLng + (bboxOf ring).maxLng) / 2, (bboxOf ring).maxLat) ∧
    (calculateMeasurementsOnly gm ring).vertices = ring.length - 1 ∧
    (∀ p ∈ ring, (bboxOf ring).minLng ≤ p.1 ∧ (bboxOf ring).minLat ≤ p.2 ∧
        p.1 ≤ (bboxOf ring).maxLng ∧ p.2 ≤ (bboxOf ring).maxLat) ∧
    (∃ p ∈ ring, p.1 = (bboxOf ring).minLng) ∧
    (∃ p ∈ ring, p.2 = (bboxOf ring).minLat) ∧
    (∃ p ∈ ring, p.1 = (bboxOf ring).maxLng) ∧
    (∃ p ∈ ring, p.2 = (bboxOf ring).maxLat) := by
  obtain ⟨hin, h1, h2, h3, h4⟩ := bboxOf_spec ring h
  exact ⟨rfl, rfl, rfl, hin, h1, h2, h3, h4⟩

/-- C7 witness: the width equation evaluated on the unit square with a
concrete distance function. -/
theorem calculateMeasurements_spec_witness :
    (calculateMeasurementsOnly ⟨fun _ => 0, fun _ => 0, fun p q => q.1 - p.1⟩
        [((0 : ℚ), (0 : ℚ)), (1, 0), (1, 1), (0, 1), (0, 0)]).vertices
      = [((0 : ℚ), (0 : ℚ)), (1, 0), (1, 1), (0, 1), (0, 0)].length - 1 :=
  (calculateMeasurements_spec ⟨fun _ => 0, fun _ => 0, fun p q => q.1 - p.1⟩
    [((0 : ℚ), (0 : ℚ)), (1, 0), (1, 1), (0, 1), (0, 0)] (by decide)).2.2.1

/-! ### C3: validation order — overlap first, short-circuit -/

/-- **C3.** Validation runs the same-type overlap check first: it tests
intersection against every existing polygon of the same type except
`excludeId`, and any non-empty intersection rejects with
"<TypeLabelPlural> cannot overlap with each other", regardless of
containment.  Only when the overlap check passes does the
parent-containment check run; the first failure short-circuits. -/
theorem validate_order_spec (gp : GeoPred) (ps : List PolygonData) (coords : List Coord)
    (t : PolygonType) (parentId excludeId : Option String) :
    (checkOverlap gp ps coords t excludeId = true ↔
      ∃ p ∈ ps, p.type = t ∧ some p.id ≠ excludeId ∧
        gp.intersects coords p.coordinates = true) ∧
    (checkOverlap gp ps coords t excludeId = true →
      validatePolygon gp ps coords t parentId excludeId
        = ⟨false, some (typeLabelPlural t ++ " cannot overlap with each other")⟩) ∧
    (checkOverlap gp ps coords t excludeId = false →
      ((t = .area ∨ parentId = none) →
        validatePolygon gp ps coords t parentId excludeId = ⟨true, none⟩) ∧
      (∀ pid, t = .mz → parentId = some pid →
        validatePolygon gp ps coords t parentId excludeId
          = if checkWithinParent gp ps coords pid then ⟨true, none⟩
            else ⟨false, some "Monitoring Zone must be completely within the selected Area"⟩) ∧
      (∀ pid, t = .sp → parentId = some pid →
        validatePolygon gp ps coords t parentId excludeId
          = if checkWithinParent gp ps coords pid then ⟨true, none⟩
            else ⟨false,
              some "Sample Plot must be completely within the selected Monitoring Zone"⟩)) := by
  refine ⟨?_, ?_, ?_⟩
  · simp only [checkOverlap, List.any_eq_true, List.mem_filter, Bool.and_eq_true,
      beq_iff_eq, bne_iff_ne, ne_eq]
    constructor
    · rintro ⟨p, ⟨hp, ht, hx⟩, hi⟩
      exact ⟨p, hp, ht, hx, hi⟩
    · rintro ⟨p, hp, ht, hx, hi⟩
      exact ⟨p, ⟨hp, ht, hx⟩, hi⟩
  · intro h
    simp [validatePolygon, h]
  · intro h
    refine ⟨?_, ?_, ?_⟩
    · rintro (rfl | rfl)
      · cases parentId <;> simp [validatePolygon, h]
      · cases t <;> simp [validatePolygon, h]
    · rintro pid rfl rfl
      simp [validatePolygon, h]
    · rintro pid rfl rfl
      simp [validatePolygon, h]

/-- C3 witness: the short-circuit conjunct at a concrete overlapping
configuration. -/
theorem validate_order_spec_witness :
    validatePolygon ⟨fun _ _ => true, fun _ _ => true⟩
        [⟨"a", .area, "Area 1", none, 0, 0, 0, 0, 4,
          [(0, 0), (1, 0), (1, 1), (0, 1), (0, 0)]⟩]
        [((2 : ℚ), (2 : ℚ)), (3, 2), (3, 3), (2, 3), (2, 2)] .area none none
      = ⟨false, some (typeLabelPlural .area ++ " cannot overlap with each other")⟩ :=
  (validate_order_spec ⟨fun _ _ => true, fun _ _ => true⟩
    [⟨"a", .area, "Area 1", none, 0, 0, 0, 0, 4,
      [(0, 0), (1, 0), (1, 1), (0, 1), (0, 0)]⟩]
    [((2 : ℚ), (2 : ℚ)), (3, 2), (3, 3), (2, 3), (2, 2)] .area none none).2.1 (by decide)

/-! ### C4: parent containment check -/

/-- **C4.** For a MonitoringZone or SamplePlot candidate with a non-null
parent id: if the parent id is not found in the store, the candidate is
rejected; otherwise (given the prior same-type overlap check passed,
cf. C3's short-circuit order) the candidate is rejected with
"<Type> must be completely within the selected <ParentType>" exactly when
the parent's ring does not contain the candidate ring. -/
theorem validate_containment_spec (gp : GeoPred) (ps : List PolygonData)
    (coords : List Coord) (t : PolygonType) (pid : String) (excludeId : Option String)
    (ht : t = .mz ∨ t = .sp) :
    (ps.find? (fun p => p.id == pid) = none →
      (validatePolygon gp ps coords t (some pid) excludeId).valid = false) ∧
    (checkOverlap gp ps coords t excludeId = false →
      ∀ parent, ps.find? (fun p => p.id == pid) = some parent →
        (validatePolygon gp ps coords t (some pid) excludeId
            = ⟨false, some (typeLabel t ++ " must be completely within the selected "
                ++ typeLabel (if t = .mz then .area else .mz))⟩
          ↔ gp.contains parent.coordinates coords = false)) := by
  constructor
  · intro hfind
    rcases ht with rfl | rfl
    · by_cases hov : checkOverlap gp ps coords PolygonType.mz excludeId = true
      · simp [validatePolygon, hov]
      · simp only [Bool.not_eq_true] at hov
        simp [validatePolygon, hov, checkWithinParent, hfind]
    · by_cases hov : checkOverlap gp ps coords PolygonType.sp excludeId = true
      · simp [validatePolygon, hov]
      · simp only [Bool.not_eq_true] at hov
        simp [validatePolygon, hov, checkWithinParent, hfind]
  · intro hov parent hfind
    rcases ht with rfl | rfl
    · simp only [validatePolygon, hov, Bool.false_eq_true, if_false,
        checkWithinParent, hfind]
      cases hc : gp.contains parent.coordinates coords
      · simp only [hc, Bool.false_eq_true, if_false]
        constructor
        · intro _
          trivial
        · intro _
          decide
      · simp [hc]
    · simp only [validatePolygon, hov, Bool.false_eq_true, if_false,
        checkWithinParent, hfind]
      cases hc : gp.contains parent.coordinates coords
      · simp only [hc, Bool.false_eq_true, if_false]
        constructor
        · intro _
          trivial
        · intro _
          decide
      · simp [hc]

/-- C4 witness: a MonitoringZone candidate whose parent id is absent from
the (empty) store is rejected. -/
theorem validate_containment_spec_witness :
    (validatePolygon ⟨fun _ _ => false, fun _ _ => true⟩ [] [] .mz (some "x") none).valid
      = false :=
  (validate_containment_spec ⟨fun _ _ => false, fun _ _ => true⟩ [] [] .mz "x" none
    (Or.inl rfl)).1 rfl

/-! ### C9: duplicate create events are ignored -/

/-- **C9.** A create event whose feature id is already present in the store
is silently ignored (store unchanged, no feature deleted, no error), and
processing the same create event twice leaves the store equal to
processing it once. -/
theorem handleCreate_duplicate_spec (gm : GeoLib) (gp : GeoPred) (prev : List PolygonData)
    (featId : String) (coords : List Coord) (t : PolygonType) (parentId : Option String) :
    ((∃ p ∈ prev, p.id = featId) →
      handleCreate gm gp prev featId coords t parentId = (prev, false, none)) ∧
    (handleCreate gm gp (handleCreate gm gp prev featId coords t parentId).1
        featId coords t parentId).1
      = (handleCreate gm gp prev featId coords t parentId).1 := by
  have hid : (calculatePolygonMeasurements gm prev featId coords t parentId none).id
      = featId := rfl
  constructor
  · rintro ⟨p, hp, hpe⟩
    have hany : prev.any (fun p => p.id == featId) = true :=
      List.any_eq_true.mpr ⟨p, hp, by simp [hpe]⟩
    simp [handleCreate, hany]
  · by_cases h : prev.any (fun p => p.id == featId) = true
    · simp [handleCreate, h]
    · simp only [Bool.not_eq_true] at h
      cases hv : (validatePolygon gp prev coords t parentId none).valid
      · simp [handleCreate, h, hv]
      · have hany2 : (prev ++
            [calculatePolygonMeasurements gm prev featId coords t parentId none]).any
              (fun p => p.id == featId) = true := by
          rw [List.any_append]
          simp [h, hid]
        simp [handleCreate, h, hv, hany2]

/-- C9 witness: a duplicate create on a one-polygon store is a no-op. -/
theorem handleCreate_duplicate_spec_witness :
    handleCreate ⟨fun _ => 0, fun _ => 0, fun _ _ => 0⟩ ⟨fun _ _ => false, fun _ _ => false⟩
        [⟨"a", .area, "Area 1", none, 0, 0, 0, 0, 4,
          [(0, 0), (1, 0), (1, 1), (0, 1), (0, 0)]⟩] "a" [] .area none
      = ([⟨"a", .area, "Area 1", none, 0, 0, 0, 0, 4,
          [(0, 0), (1, 0), (1, 1), (0, 1), (0, 0)]⟩], false, none) :=
  (handleCreate_duplicate_spec ⟨fun _ => 0, fun _ => 0, fun _ _ => 0⟩
    ⟨fun _ _ => false, fun _ _ => false⟩
    [⟨"a", .area, "Area 1", none, 0, 0, 0, 0, 4,
      [(0, 0), (1, 0), (1, 1), (0, 1), (0, 0)]⟩] "a" [] .area none).1 (by decide)

/-! ### C8: coordinate updates recompute measurements, frame unchanged -/

/-- **C8.** After a coordinate update (store resynchronization from the
drawing library), every polygon whose id names a polygon feature carries
that feature's ring and exactly the measurements of 4.1 on that ring,
while its `id`, `type`, `parentId` and `name` are unchanged; a polygon
whose id names no feature is untouched, and an update naming only ids not
in the store leaves the store unchanged. -/
theorem updateCoordinates_spec (gm : GeoLib) (feats : List Feature) (prev : List PolygonData) :
    List.Forall₂ (fun p q =>
      q.id = p.id ∧ q.type = p.type ∧ q.parentId = p.parentId ∧ q.name = p.name ∧
      (∀ fr, (polygonFeatures feats).find? (fun x => x.1 == p.id) = some fr →
        q.coordinates = fr.2 ∧
        q.area = (calculateMeasurementsOnly gm fr.2).area ∧
        q.perimeter = (calculateMeasurementsOnly gm fr.2).perimeter ∧
        q.width = (calculateMeasurementsOnly gm fr.2).width ∧
        q.height = (calculateMeasurementsOnly gm fr.2).height ∧
        q.vertices = (calculateMeasurementsOnly gm fr.2).vertices) ∧
      ((polygonFeatures feats).find? (fun x => x.1 == p.id) = none → q = p))
      prev (updatePolygonsList gm feats prev) ∧
    ((∀ fr ∈ polygonFeatures feats, ∀ p ∈ prev, fr.1 ≠ p.id) →
      updatePolygonsList gm feats prev = prev) := by
  constructor
  · rw [updatePolygonsList, List.forall₂_map_right_iff, List.forall₂_same]
    intro p hp
    cases hfind : (polygonFeatures feats).find? (fun x => x.1 == p.id) with
    | none => simp [hfind]
    | some fr => simp [hfind]
  · intro hno
    have hnone : ∀ p ∈ prev, (polygonFeatures feats).find? (fun x => x.1 == p.id) = none := by
      intro p hp
      apply List.find?_eq_none.mpr
      intro fr hfr
      simp [hno fr hfr p hp]
    rw [updatePolygonsList]
    calc prev.map _ = prev.map id := List.map_congr_left fun p hp => by
            simp only [hnone p hp, id]
      _ = prev := List.map_id prev

/-- C8 witness: an update carrying only unknown ids leaves the store
unchanged. -/
theorem updateCoordinates_spec_witness :
    updatePolygonsList ⟨fun _ => 0, fun _ => 0, fun _ _ => 0⟩
        [⟨"x", .polygon [((5 : ℚ), (5 : ℚ)), (6, 5), (6, 6), (5, 5)]⟩]
        [⟨"a", .area, "Area 1", none, 0, 0, 0, 0, 4,
          [(0, 0), (1, 0), (1, 1), (0, 1), (0, 0)]⟩]
      = [⟨"a", .area, "Area 1", none, 0, 0, 0, 0, 4,
          [(0, 0), (1, 0), (1, 1), (0, 1), (0, 0)]⟩] :=
  (updateCoordinates_spec ⟨fun _ => 0, fun _ => 0, fun _ _ => 0⟩
    [⟨"x", .polygon [((5 : ℚ), (5 : ℚ)), (6, 5), (6, 6), (5, 5)]⟩]
    [⟨"a", .area, "Area 1", none, 0, 0, 0, 0, 4,
      [(0, 0), (1, 0), (1, 1), (0, 1), (0, 0)]⟩]).2 (by decide)

/-! ### C5: vertex floor (corrected) -/

/-- C5 counterexample: the floor check counts ring points, not distinct
vertices.  On the degenerate closed ring `[(0,0),(1,0),(0,0),(1,0),(0,0)]`
(5 points), deleting vertex 1 leaves fewer than 3 distinct vertices, yet
the deletion is not refused: it commits and changes the drawing-library
feature — refuting the claim as stated. -/
theorem deleteVertex_floor_cex :
    (removeVertex [((0 : ℚ), (0 : ℚ)), (1, 0), (0, 0), (1, 0), (0, 0)] 1).dedup.length < 3 ∧
    (deleteVertex ⟨fun _ => 0, fun _ => 0, fun _ _ => 0⟩ ⟨fun _ _ => false, fun _ _ => true⟩
        [⟨"p", .polygon [((0 : ℚ), (0 : ℚ)), (1, 0), (0, 0), (1, 0), (0, 0)]⟩]
        [⟨"p", .area, "Area 1", none, 0, 0, 0, 0, 4,
          [((0 : ℚ), (0 : ℚ)), (1, 0), (0, 0), (1, 0), (0, 0)]⟩] "p" 1).2
      = .committed ∧
    (deleteVertex ⟨fun _ => 0, fun _ => 0, fun _ _ => 0⟩ ⟨fun _ _ => false, fun _ _ => true⟩
        [⟨"p", .polygon [((0 : ℚ), (0 : ℚ)), (1, 0), (0, 0), (1, 0), (0, 0)]⟩]
        [⟨"p", .area, "Area 1", none, 0, 0, 0, 0, 4,
          [((0 : ℚ), (0 : ℚ)), (1, 0), (0, 0), (1, 0), (0, 0)]⟩] "p" 1).1.1
      ≠ [⟨"p", .polygon [((0 : ℚ), (0 : ℚ)), (1, 0), (0, 0), (1, 0), (0, 0)]⟩] := by
  refine ⟨by decide, by decide, by decide⟩

/-- **C5 (amended).** An explicit vertex deletion is refused — before any
geometric validation (the conclusion holds for every `gm`, `gp`) and with
the feature and store unchanged — when the current ring has at most 4
points, i.e. the resulting ring would have fewer than 3 points besides the
closing point, counting multiplicity. -/
theorem deleteVertex_floor (gm : GeoLib) (gp : GeoPred) (feats : List Feature)
    (polys : List PolygonData) (pid : String) (i : ℕ) (f : Feature) (ring : List Coord)
    (hf : feats.find? (fun x => x.id == pid) = some f) (hg : f.geom = .polygon ring)
    (hlen : ring.length ≤ 4) :
    deleteVertex gm gp feats polys pid i = ((feats, polys), .tooFew) := by
  simp [deleteVertex, hf, hg, hlen]

/-- C5 witness: a 4-point (3-vertex) square refuses vertex deletion. -/
theorem deleteVertex_floor_witness :
    deleteVertex ⟨fun _ => 0, fun _ => 0, fun _ _ => 0⟩ ⟨fun _ _ => false, fun _ _ => true⟩
        [⟨"q", .polygon [((0 : ℚ), (0 : ℚ)), (1, 0), (1, 1), (0, 0)]⟩] [] "q" 0
      = (([⟨"q", .polygon [((0 : ℚ), (0 : ℚ)), (1, 0), (1, 1), (0, 0)]⟩], []), .tooFew) :=
  deleteVertex_floor ⟨fun _ => 0, fun _ => 0, fun _ _ => 0⟩ ⟨fun _ _ => false, fun _ _ => true⟩
    [⟨"q", .polygon [((0 : ℚ), (0 : ℚ)), (1, 0), (1, 1), (0, 0)]⟩] [] "q" 0
    ⟨"q", .polygon [((0 : ℚ), (0 : ℚ)), (1, 0), (1, 1), (0, 0)]⟩
    [((0 : ℚ), (0 : ℚ)), (1, 0), (1, 1), (0, 0)] rfl rfl (by decide)

/-! ### C10: vertex deletion on a feature absent from the store -/

/-- The store resynchronization never changes the sequence of stored ids. -/
theorem updatePolygonsList_ids (gm : GeoLib) (fs : List Feature) (ps : List PolygonData) :
    (updatePolygonsList gm fs ps).map (fun p => p.id) = ps.map fun p => p.id := by
  rw [updatePolygonsList, List.map_map]
  apply List.map_congr_left
  intro p hp
  cases hfind : (polygonFeatures fs).find? (fun x => x.1 == p.id) <;> simp [hfind]

/-- **C10.** When the polygon id exists as a polygon feature in the
drawing library but is absent from the store, `deleteVertex` commits the
vertex removal to the feature with no geometric validation (the result is
the same for every `gp`, i.e. the overlap and containment checks are never
consulted), and the store gains no entry for that id (its id sequence is
unchanged and never contains the feature's id). -/
theorem deleteVertex_nostore_spec (gm : GeoLib) (gp : GeoPred) (feats : List Feature)
    (polys : List PolygonData) (pid : String) (i : ℕ) (f : Feature) (ring : List Coord)
    (hf : feats.find? (fun x => x.id == pid) = some f)
    (hg : f.geom = .polygon ring)
    (hlen : 4 < ring.length)
    (hnone : polys.find? (fun p => p.id == pid) = none) :
    deleteVertex gm gp feats polys pid i
      = ((feats.map fun x => if x.id == pid
            then { x with geom := .polygon (removeVertex ring i) } else x,
          updatePolygonsList gm
            (feats.map fun x => if x.id == pid
              then { x with geom := .polygon (removeVertex ring i) } else x) polys),
         .committed) ∧
    (∀ p ∈ (deleteVertex gm gp feats polys pid i).1.2, p.id ≠ pid) ∧
    ((deleteVertex gm gp feats polys pid i).1.2).map (fun p => p.id)
      = polys.map fun p => p.id := by
  have hnotle : ¬ ring.length ≤ 4 := by omega
  have hmain : deleteVertex gm gp feats polys pid i
      = ((feats.map fun x => if x.id == pid
            then { x with geom := .polygon (removeVertex ring i) } else x,
          updatePolygonsList gm
            (feats.map fun x => if x.id == pid
              then { x with geom := .polygon (removeVertex ring i) } else x) polys),
         .committed) := by
    simp [deleteVertex, hf, hg, hnotle, hnone]
  refine ⟨hmain, ?_, ?_⟩
  · intro p hp
    rw [hmain] at hp
    have hmem : p.id ∈ (updatePolygonsList gm _ polys).map (fun p => p.id) :=
      List.mem_map_of_mem _ hp
    rw [updatePolygonsList_ids] at hmem
    obtain ⟨q, hq, he⟩ := List.mem_map.mp hmem
    have hne := List.find?_eq_none.mp hnone q hq
    simp only [beq_iff_eq] at hne
    rw [← he]
    simpa using hne
  · rw [hmain]
    exact updatePolygonsList_ids ..

/-- C10 witness: committing a vertex deletion on a feature with no store
entry leaves the (empty) store id sequence unchanged. -/
theorem deleteVertex_nostore_spec_witness :
    ((deleteVertex ⟨fun _ => 0, fun _ => 0, fun _ _ => 0⟩ ⟨fun _ _ => true, fun _ _ => false⟩
        [⟨"p", .polygon [((0 : ℚ), (0 : ℚ)), (1, 0), (1, 1), (0, 1), (0, 0)]⟩]
        [] "p" 1).1.2).map (fun p => p.id)
      = ([] : List PolygonData).map (fun p => p.id) :=
  (deleteVertex_nostore_spec ⟨fun _ => 0, fun _ => 0, fun _ _ => 0⟩
    ⟨fun _ _ => true, fun _ _ => false⟩
    [⟨"p", .polygon [((0 : ℚ), (0 : ℚ)), (1, 0), (1, 1), (0, 1), (0, 0)]⟩] [] "p" 1
    ⟨"p", .polygon [((0 : ℚ), (0 : ℚ)), (1, 0), (1, 1), (0, 1), (0, 0)]⟩
    [((0 : ℚ), (0 : ℚ)), (1, 0), (1, 1), (0, 1), (0, 0)] rfl rfl (by decide) rfl).2.2

/-! ### C1: re-validation of committed vertex edits (corrected) -/

/-- C1 counterexample: a committed drag (`draw.update`) does not re-run
validation.  Concretely, the edited ring of polygon "a" fails validation
(everything intersects under this `gp`, so the surviving same-type polygon
"b" overlaps it), yet the handler still rewrites the store. -/
theorem drawUpdate_no_validation_cex :
    (validatePolygon ⟨fun _ _ => true, fun _ _ => true⟩
        [⟨"a", .area, "Area 1", none, 0, 0, 0, 0, 4,
          [((0 : ℚ), (0 : ℚ)), (1, 0), (1, 1), (0, 1), (0, 0)]⟩,
         ⟨"b", .area, "Area 2", none, 0, 0, 0, 0, 4,
          [((5 : ℚ), (5 : ℚ)), (6, 5), (6, 6), (5, 6), (5, 5)]⟩]
        [((0 : ℚ), (0 : ℚ)), (2, 0), (2, 2), (0, 2), (0, 0)] .area none (some "a")).valid
      = false ∧
    onDrawUpdate ⟨fun _ => 0, fun _ => 0, fun _ _ => 0⟩
        [⟨"a", .polygon [((0 : ℚ), (0 : ℚ)), (2, 0), (2, 2), (0, 2), (0, 0)]⟩,
         ⟨"b", .polygon [((5 : ℚ), (5 : ℚ)), (6, 5), (6, 6), (5, 6), (5, 5)]⟩]
        [⟨"a", .area, "Area 1", none, 0, 0, 0, 0, 4,
          [((0 : ℚ), (0 : ℚ)), (1, 0), (1, 1), (0, 1), (0, 0)]⟩,
         ⟨"b", .area, "Area 2", none, 0, 0, 0, 0, 4,
          [((5 : ℚ), (5 : ℚ)), (6, 5), (6, 6), (5, 6), (5, 5)]⟩]
      ≠ [⟨"a", .area, "Area 1", none, 0, 0, 0, 0, 4,
          [((0 : ℚ), (0 : ℚ)), (1, 0), (1, 1), (0, 1), (0, 0)]⟩,
         ⟨"b", .area, "Area 2", none, 0, 0, 0, 0, 4,
          [((5 : ℚ), (5 : ℚ)), (6, 5), (6, 6), (5, 6), (5, 5)]⟩] := by
  refine ⟨by decide, by decide⟩

/-- **C1 (amended).** Only the explicit vertex-delete path re-validates:
for a vertex deletion on a polygon present in the store, validation runs
with `excludeId` = the polygon's own id; on Accept the feature is replaced
and the store's coordinates are updated (4.3), on Reject feature and store
are left unchanged and the reason is surfaced.  A committed drag
(`draw.update`) copies the new ring into the store without re-running
validation. -/
theorem vertexEdit_validation_spec (gm : GeoLib) (gp : GeoPred) (feats : List Feature)
    (polys : List PolygonData) (pid : String) (i : ℕ) (f : Feature) (ring : List Coord)
    (polygon : PolygonData)
    (hf : feats.find? (fun x => x.id == pid) = some f)
    (hg : f.geom = .polygon ring)
    (hlen : 4 < ring.length)
    (hp : polys.find? (fun p => p.id == pid) = some polygon) :
    ((validatePolygon gp polys (removeVertex ring i) polygon.type polygon.parentId
        (some pid)).valid = false →
      deleteVertex gm gp feats polys pid i
        = ((feats, polys),
           .rejected (validatePolygon gp polys (removeVertex ring i) polygon.type
              polygon.parentId (some pid)).error)) ∧
    ((validatePolygon gp polys (removeVertex ring i) polygon.type polygon.parentId
        (some pid)).valid = true →
      deleteVertex gm gp feats polys pid i
        = ((feats.map fun x => if x.id == pid
              then { x with geom := .polygon (removeVertex ring i) } else x,
            updatePolygonsList gm (feats.map fun x => if x.id == pid
              then { x with geom := .polygon (removeVertex ring i) } else x) polys),
           .committed)) ∧
    onDrawUpdate gm feats polys = updatePolygonsList gm feats polys := by
  have hnotle : ¬ ring.length ≤ 4 := by omega
  refine ⟨?_, ?_, rfl⟩
  · intro hv
    simp [deleteVertex, hf, hg, hnotle, hp, hv]
  · intro hv
    simp [deleteVertex, hf, hg, hnotle, hp, hv]

/-- C1 witness: the accept path on a lone Area whose vertex 1 is deleted. -/
theorem vertexEdit_validation_spec_witness :
    onDrawUpdate ⟨fun _ => 0, fun _ => 0, fun _ _ => 0⟩
        [⟨"a", .polygon [((0 : ℚ), (0 : ℚ)), (1, 0), (1, 1), (0, 1), (0, 0)]⟩]
        [⟨"a", .area, "Area 1", none, 0, 0, 0, 0, 4,
          [((0 : ℚ), (0 : ℚ)), (1, 0), (1, 1), (0, 1), (0, 0)]⟩]
      = updatePolygonsList ⟨fun _ => 0, fun _ => 0, fun _ _ => 0⟩
        [⟨"a", .polygon [((0 : ℚ), (0 : ℚ)), (1, 0), (1, 1), (0, 1), (0, 0)]⟩]
        [⟨"a", .area, "Area 1", none, 0, 0, 0, 0, 4,
          [((0 : ℚ), (0 : ℚ)), (1, 0), (1, 1), (0, 1), (0, 0)]⟩] :=
  (vertexEdit_validation_spec ⟨fun _ => 0, fun _ => 0, fun _ _ => 0⟩
    ⟨fun _ _ => false, fun _ _ => true⟩
    [⟨"a", .polygon [((0 : ℚ), (0 : ℚ)), (1, 0), (1, 1), (0, 1), (0, 0)]⟩]
    [⟨"a", .area, "Area 1", none, 0, 0, 0, 0, 4,
      [((0 : ℚ), (0 : ℚ)), (1, 0), (1, 1), (0, 1), (0, 0)]⟩] "a" 1
    ⟨"a", .polygon [((0 : ℚ), (0 : ℚ)), (1, 0), (1, 1), (0, 1), (0, 0)]⟩
    [((0 : ℚ), (0 : ℚ)), (1, 0), (1, 1), (0, 1), (0, 0)]
    ⟨"a", .area, "Area 1", none, 0, 0, 0, 0, 4,
      [((0 : ℚ), (0 : ℚ)), (1, 0), (1, 1), (0, 1), (0, 0)]⟩
    rfl rfl (by decide) rfl).2.2

/-! ### C2: cascade delete removes exactly the descendant closure -/

theorem walkN_of_descendant {prev : List PolygonData} {y x : String}
    (h : Descendant prev y x) : ∃ n, WalkN prev (n + 1) y x := by
  induction h with
  | base p x hp hpar => exact ⟨0, p, hp, rfl, x, hpar, rfl⟩
  | step p y x hp hpar _ ih =>
    obtain ⟨n, hw⟩ := ih
    exact ⟨n + 1, p, hp, rfl, y, hpar, hw⟩

theorem walkN_snoc {prev : List PolygonData} :
    ∀ n y x, WalkN prev (n + 1) y x →
      ∃ w, (∃ p ∈ prev, p.id = w ∧ p.parentId = some x) ∧ WalkN prev n y w := by
  intro n
  induction n with
  | zero =>
    rintro y x ⟨p, hp, hid, z, hz, hzx⟩
    have hzx' : z = x := hzx
    subst hzx'
    exact ⟨y, ⟨p, hp, hid, hz⟩, rfl⟩
  | succ m ih =>
    rintro y x ⟨p, hp, hid, z, hz, hw⟩
    obtain ⟨w, hwp, hyw⟩ := ih z x hw
    exact ⟨w, hwp, p, hp, hid, z, hz, hyw⟩

theorem walkN_rank {prev : List PolygonData}
    (H1 : ∀ p ∈ prev, ∀ q ∈ prev, p.parentId = some q.id →
      tierRank p.type = tierRank q.type + 1) :
    ∀ n y x, WalkN prev (n + 1) y x → ∃ p ∈ prev, p.id = y ∧ n ≤ tierRank p.type := by
  intro n
  induction n with
  | zero =>
    rintro y x ⟨p, hp, hid, z, hz, _⟩
    exact ⟨p, hp, hid, Nat.zero_le _⟩
  | succ m ih =>
    rintro y x ⟨p, hp, hid, z, hz, hw⟩
    obtain ⟨q, hq, hqid, hqr⟩ := ih z x hw
    have hstep : tierRank p.type = tierRank q.type + 1 := by
      refine H1 p hp q hq ?_
      rw [hz, hqid]
    exact ⟨p, hp, hid, by omega⟩

theorem cascadeAux_subset (prev : List PolygonData) :
    ∀ fuel acc fr, acc ⊆ cascadeAux prev fuel acc fr := by
  intro fuel
  induction fuel with
  | zero =>
    intro acc fr
    simp [cascadeAux]
  | succ fl ih =>
    intro acc fr
    simp only [cascadeAux]
    by_cases h : (prev.filter fun p => fr.contains (p.parentId.getD "")).isEmpty = true
    · rw [if_pos h]
    · rw [if_neg h]
      exact Finset.Subset.trans Finset.subset_union_left (ih _ _)

theorem cascadeAux_complete (prev : List PolygonData) :
    ∀ m fuel acc fr y z, m ≤ fuel → z ∈ fr → WalkN prev m y z →
      (∀ w ∈ fr, w ∈ acc) → y ∈ cascadeAux prev fuel acc fr := by
  intro m
  induction m with
  | zero =>
    intro fuel acc fr y z _ hz hw hsub
    have hyz : y = z := hw
    subst hyz
    exact cascadeAux_subset prev fuel acc fr (hsub _ hz)
  | succ m ih =>
    intro fuel acc fr y z hmf hz hw hsub
    cases fuel with
    | zero => omega
    | succ fl =>
      obtain ⟨w, ⟨p, hp, hpid, hppar⟩, hyw⟩ := walkN_snoc m y z hw
      have hmem : p ∈ prev.filter fun q => fr.contains (q.parentId.getD "") := by
        rw [List.mem_filter]
        refine ⟨hp, ?_⟩
        rw [hppar]
        exact List.elem_eq_true_of_mem hz
      have hne : ¬ (prev.filter fun q => fr.contains (q.parentId.getD "")).isEmpty = true := by
        intro h
        rw [List.isEmpty_iff] at h
        rw [h] at hmem
        cases hmem
      simp only [cascadeAux]
      rw [if_neg hne]
      refine ih fl _ _ y w (by omega) ?_ hyw ?_
      · exact List.mem_map.mpr ⟨p, hmem, hpid⟩
      · intro u hu
        exact Finset.mem_union_right _ (List.mem_toFinset.mpr hu)

theorem cascadeAux_sound {prev : List PolygonData} {X : String}
    (H2 : ∀ p ∈ prev, p.id ≠ "") :
    ∀ fuel fr acc, (∀ w ∈ fr, w ≠ "") →
      (∀ w ∈ fr, w = X ∨ Descendant prev w X) →
      (∀ u ∈ acc, u = X ∨ Descendant prev u X) →
      ∀ y ∈ cascadeAux prev fuel acc fr, y = X ∨ Descendant prev y X := by
  intro fuel
  induction fuel with
  | zero =>
    intro fr acc _ _ hacc y hy
    exact hacc y (by simpa [cascadeAux] using hy)
  | succ fl ih =>
    intro fr acc hfr hfrd hacc y hy
    simp only [cascadeAux] at hy
    by_cases h : (prev.filter fun q => fr.contains (q.parentId.getD "")).isEmpty = true
    · rw [if_pos h] at hy
      exact hacc y hy
    · rw [if_neg h] at hy
      have hchild : ∀ q ∈ prev.filter (fun q => fr.contains (q.parentId.getD "")),
          q ∈ prev ∧ (q.parentId.getD "") ∈ fr := by
        intro q hq
        rw [List.mem_filter] at hq
        exact ⟨hq.1, List.mem_of_elem_eq_true hq.2⟩
      have hids_d : ∀ u ∈ (prev.filter
            (fun q => fr.contains (q.parentId.getD ""))).map (fun c => c.id),
          u = X ∨ Descendant prev u X := by
        intro u hu
        obtain ⟨q, hq, rfl⟩ := List.mem_map.mp hu
        obtain ⟨hqp, hz⟩ := hchild q hq
        have hzne : q.parentId.getD "" ≠ "" := hfr _ hz
        obtain ⟨z, hqpar⟩ : ∃ z, q.parentId = some z := by
          cases hq' : q.parentId with
          | none => exact absurd (by rw [hq']; rfl) hzne
          | some a => exact ⟨a, rfl⟩
        have hzfr : z ∈ fr := by
          have : q.parentId.getD "" = z := by rw [hqpar]; rfl
          rwa [this] at hz
        rcases hfrd z hzfr with rfl | hd
        · exact Or.inr (.base q z hqp hqpar)
        · exact Or.inr (.step q z X hqp hqpar hd)
      have hids_ne : ∀ u ∈ (prev.filter
            (fun q => fr.contains (q.parentId.getD ""))).map (fun c => c.id), u ≠ "" := by
        intro u hu
        obtain ⟨q, hq, rfl⟩ := List.mem_map.mp hu
        exact H2 q (hchild q hq).1
      refine ih _ _ hids_ne hids_d ?_ y hy
      intro u hu
      rcases Finset.mem_union.mp hu with h' | h'
      · exact hacc u h'
      · exact hids_d u (List.mem_toFinset.mp h')

/-- **C2.** Under the store's structural invariants (every parent reference
in the store points one tier up, ids are non-empty, and `X` is the id of a
stored polygon), deleting polygon `X` retracts from the drawing library
exactly `X` together with all of `X`'s transitive descendants — polygons
whose `parentId` chain reaches `X` — and the new store keeps exactly the
polygons outside that closure: no other polygon is removed. -/
theorem deletePolygon_cascade (prev : List PolygonData) (X : String)
    (H1 : ∀ p ∈ prev, ∀ q ∈ prev, p.parentId = some q.id →
      tierRank p.type = tierRank q.type + 1)
    (H2 : ∀ p ∈ prev, p.id ≠ "")
    (HX : ∃ p ∈ prev, p.id = X) :
    (∀ y, y ∈ (deletePolygon prev X).2 ↔ (y = X ∨ Descendant prev y X)) ∧
    (∀ p, p ∈ (deletePolygon prev X).1 ↔
      (p ∈ prev ∧ ¬(p.id = X ∨ Descendant prev p.id X))) := by
  have hXne : X ≠ "" := by
    obtain ⟨p, hp, hpe⟩ := HX
    rw [← hpe]
    exact H2 p hp
  have hset : ∀ y, y ∈ deleteCascadeSet prev X ↔ (y = X ∨ Descendant prev y X) := by
    intro y
    constructor
    · intro hy
      refine cascadeAux_sound H2 (prev.length + 3) [X] {X} ?_ ?_ ?_ y hy
      · intro w hw
        rw [List.mem_singleton] at hw
        subst hw
        exact hXne
      · intro w hw
        rw [List.mem_singleton] at hw
        exact Or.inl hw
      · intro u hu
        rw [Finset.mem_singleton] at hu
        exact Or.inl hu
    · rintro (rfl | hd)
      · exact cascadeAux_subset prev _ _ _ (Finset.mem_singleton_self _)
      · obtain ⟨n, hw⟩ := walkN_of_descendant hd
        obtain ⟨p, hp, -, hr⟩ := walkN_rank H1 n y X hw
        have hr2 : tierRank p.type ≤ 2 := by cases p.type <;> simp [tierRank]
        refine cascadeAux_complete prev (n + 1) (prev.length + 3) {X} [X] y X
          (by omega) (List.mem_singleton_self X) hw ?_
        intro w hw'
        rw [List.mem_singleton] at hw'
        subst hw'
        exact Finset.mem_singleton_self w
  constructor
  · intro y
    exact hset y
  · intro p
    simp only [deletePolygon, List.mem_filter, decide_eq_true_eq]
    constructor
    · rintro ⟨hp, hnot⟩
      exact ⟨hp, fun hcon => hnot ((hset p.id).mpr hcon)⟩
    · rintro ⟨hp, hnot⟩
      exact ⟨hp, fun hcon => hnot ((hset p.id).mp hcon)⟩

/-- C2 witness: in the three-tier store Area "a" ← MZ "m" ← SP "s",
membership of "s" in the retracted closure of deleting "a" is exactly
descendant-or-self. -/
theorem deletePolygon_cascade_witness :
    "s" ∈ (deletePolygon
        [⟨"a", .area, "Area 1", none, 0, 0, 0, 0, 4,
          [((0 : ℚ), (0 : ℚ)), (9, 0), (9, 9), (0, 9), (0, 0)]⟩,
         ⟨"m", .mz, "Monitoring Zone 1", some "a", 0, 0, 0, 0, 4,
          [((1 : ℚ), (1 : ℚ)), (8, 1), (8, 8), (1, 8), (1, 1)]⟩,
         ⟨"s", .sp, "Sample Plot 1", some "m", 0, 0, 0, 0, 4,
          [((2 : ℚ), (2 : ℚ)), (7, 2), (7, 7), (2, 7), (2, 2)]⟩] "a").2
      ↔ ("s" = "a" ∨ Descendant
        [⟨"a", .area, "Area 1", none, 0, 0, 0, 0, 4,
          [((0 : ℚ), (0 : ℚ)), (9, 0), (9, 9), (0, 9), (0, 0)]⟩,
         ⟨"m", .mz, "Monitoring Zone 1", some "a", 0, 0, 0, 0, 4,
          [((1 : ℚ), (1 : ℚ)), (8, 1), (8, 8), (1, 8), (1, 1)]⟩,
         ⟨"s", .sp, "Sample Plot 1", some "m", 0, 0, 0, 0, 4,
          [((2 : ℚ), (2 : ℚ)), (7, 2), (7, 7), (2, 7), (2, 2)]⟩] "s" "a") :=
  (deletePolygon_cascade
    [⟨"a", .area, "Area 1", none, 0, 0, 0, 0, 4,
      [((0 : ℚ), (0 : ℚ)), (9, 0), (9, 9), (0, 9), (0, 0)]⟩,
     ⟨"m", .mz, "Monitoring Zone 1", some "a", 0, 0, 0, 0, 4,
      [((1 : ℚ), (1 : ℚ)), (8, 1), (8, 8), (1, 8), (1, 1)]⟩,
     ⟨"s", .sp, "Sample Plot 1", some "m", 0, 0, 0, 0, 4,
      [((2 : ℚ), (2 : ℚ)), (7, 2), (7, 7), (2, 7), (2, 2)]⟩] "a"
    (by decide) (by decide) (by decide)).1 "s"

end OFM
